import Mathlib

/-!
Verification development for the vscode-perforce extension sources.

The TypeScript sources are shallowly embedded: JavaScript strings become
Lean `String`s (manipulated through their character lists), JavaScript
array indexing and `slice`/`indexOf`/`findIndex` semantics (including the
`-1` conventions and negative-index clamping) are reproduced by explicit
`Int`-based primitives, `undefined`-able values become `Option`, and code
paths that `throw` become `Except`.
-/

namespace VscPerforce

/-! ## JavaScript primitives -/

/-- First index of an element satisfying `p`, as an `Option`. -/
def findIdxO (p : α → Bool) : List α → Option Nat
  | [] => none
  | a :: l => if p a then some 0 else (findIdxO p l).map (· + 1)

/-- JavaScript `Array.prototype.findIndex`: index of first match, or `-1`. -/
def jsFindIndex (p : α → Bool) (l : List α) : Int :=
  match findIdxO p l with
  | some n => (n : Int)
  | none => -1

/-- JavaScript array indexing `l[i]`: `undefined` (i.e. `none`) when out of range,
including all negative indices. -/
def jsIndex (l : List α) (i : Int) : Option α :=
  if i < 0 then none else l.get? i.toNat

/-- Clamp a (possibly negative) JavaScript slice index into `[0, len]`,
counting negative indices from the end, as `String.prototype.slice` does. -/
def jsClampIdx (len : Nat) (i : Int) : Nat :=
  if i < 0 then ((len : Int) + i).toNat else min i.toNat len

/-- JavaScript `String.prototype.slice` on a character list. -/
def jsSliceList (l : List Char) (start stop : Int) : List Char :=
  (l.take (jsClampIdx l.length stop)).drop (jsClampIdx l.length start)

/-- JavaScript `s.slice(start, stop)`. -/
def jsSlice (s : String) (start stop : Int) : String :=
  String.mk (jsSliceList s.toList start stop)

/-- JavaScript `s.slice(start)` (to the end of the string). -/
def jsSliceFrom (s : String) (start : Int) : String :=
  jsSlice s start (s.toList.length : Int)

/-- JavaScript `s.indexOf(c)` for a single character: first index or `-1`. -/
def jsIndexOf (s : String) (c : Char) : Int :=
  match findIdxO (· == c) s.toList with
  | some n => (n : Int)
  | none => -1

/-- JavaScript `s.startsWith(pre)`. -/
def jsStartsWith (s pre : String) : Bool :=
  pre.toList.isPrefixOf s.toList

/-! ## CommandUtils helpers (not present under `src/`) -/

/-- Splitter state machine for `splitIntoSections`, accumulating the current
section in reverse. -/
def splitSectionsAux : List Char → List Char → List (List Char)
  | [], acc => [acc.reverse]
  | '\n' :: '\n' :: rest, acc => acc.reverse :: splitSectionsAux rest []
  | c :: rest, acc => splitSectionsAux rest (c :: acc)

/-- Modelled from the spec: `splitIntoSections` from `CommandUtils` (not in
`src/`). A spec is "a colon-delimited, multi-field text block"; sections are
separated by blank lines, i.e. the text is split at each `"\n\n"`. -/
def splitIntoSections (s : String) : List String :=
  (splitSectionsAux s.toList []).map String.mk

/-- Splitter state machine for `splitIntoLines`. -/
def splitLinesAux : List Char → List Char → List (List Char)
  | [], acc => [acc.reverse]
  | '\n' :: rest, acc => acc.reverse :: splitLinesAux rest []
  | c :: rest, acc => splitLinesAux rest (c :: acc)

/-- Modelled from the spec: `splitIntoLines` from `CommandUtils` (not in
`src/`): split a field's text into its ordered sequence of lines at each
newline. -/
def splitIntoLines (s : String) : List String :=
  (splitLinesAux s.toList []).map String.mk

/-- Modelled from the spec: `removeLeadingNewline` from `CommandUtils` (not in
`src/`): drop a single leading newline from the field value, when present. -/
def removeLeadingNewline (s : String) : String :=
  match s.toList with
  | '\n' :: rest => String.mk rest
  | _ => s

/-- Strip the leading indentation (spaces and tabs) from a single line. -/
def stripIndentLine (l : String) : String :=
  String.mk (l.toList.dropWhile (fun c => c == ' ' || c == '\t'))

/-- Modelled from the spec: `removeIndent` from `CommandUtils` (not in
`src/`): "trimming indentation per field" — remove the leading indentation
from each line of the field value. -/
def removeIndent (lines : List String) : List String :=
  lines.map stripIndentLine

/-! ## SpecParser (`src/src/api/SpecParser.ts`) -/

/-- One parsed field of a spec block (`RawField` from `CommonTypes`). -/
structure RawField where
  name : String
  value : List String
deriving DecidableEq, Repr

/-- `parseRawField` from `SpecParser.ts` line 9. -/
def parseRawField (value : String) : List String :=
  removeIndent (splitIntoLines (removeLeadingNewline value))

/-- The per-section body of `parseRawFields` (`SpecParser.ts` lines 12-17);
the source's local `colPos` is inlined. -/
def parseField (field : String) : RawField :=
  { name := jsSlice field 0 (jsIndexOf field ':')
    value := parseRawField (jsSliceFrom field (jsIndexOf field ':' + 2)) }

/-- `parseRawFields` from `SpecParser.ts` lines 11-18. -/
def parseRawFields (parts : List String) : List RawField :=
  parts.map parseField

/-- `excludeNonFields` from `SpecParser.ts` lines 23-24. -/
def excludeNonFields (parts : List String) : List String :=
  parts.filter (fun part => !(jsStartsWith part "#") && !(part == ""))

/-- `parseSpecOutput` from `SpecParser.ts` line 26. -/
def parseSpecOutput (value : String) : List RawField :=
  parseRawFields (excludeNonFields (splitIntoSections value))

/-! Claim-side rendering of C1's words ("the field's name is the section text
before the first colon and the field's value is the section text starting two
characters after that colon, ..."). -/

/-- The section text before the first colon (the whole section when it has no
colon). -/
def sectionName (sec : String) : String :=
  String.mk (sec.toList.takeWhile (fun c => !(c == ':')))

/-- The section text starting two characters after the first colon. -/
def sectionValueStart (sec : String) : String :=
  String.mk (sec.toList.drop ((sec.toList.takeWhile (fun c => !(c == ':'))).length + 2))

/-- A `RawField` exactly as claim C1 describes it, per section. -/
def claimedField (sec : String) : RawField :=
  { name := sectionName sec
    value := parseRawField (sectionValueStart sec) }

/-- `parseSpecOutput` exactly as claim C1 describes it. -/
def claimedParseSpecOutput (s : String) : List RawField :=
  (excludeNonFields (splitIntoSections s)).map claimedField

/-! ## DateFormatter (`src/unnamed/part_001`) -/

/-- The `Intl.DateTimeFormatOptions` fields that `DateFormatter` sets
(each either absent or a style string such as `"long"` / `"numeric"`). -/
structure DateTimeFormatOptions where
  weekday : Option String
  year : Option String
  month : Option String
  day : Option String
  hour : Option String
  minute : Option String
deriving DecidableEq, Repr

/-- The options built inside `toReadableDateTime` (part_001 lines 7-14). -/
def dateTimeOptions : DateTimeFormatOptions :=
  { weekday := some "long", year := some "numeric", month := some "long"
    day := some "numeric", hour := some "numeric", minute := some "numeric" }

/-- The options built inside `toReadableDate` (part_001 lines 22-27). -/
def dateOnlyOptions : DateTimeFormatOptions :=
  { weekday := some "long", year := some "numeric", month := some "long"
    day := some "numeric", hour := none, minute := none }

/-- The host environment for date formatting: `vscode.env.language` and the
`Date.prototype.toLocaleString` implementation (an oracle: the host's `Intl`
machinery is outside the program). A timestamp is an opaque `Nat`. -/
structure DateEnv where
  language : String
  toLocaleString : String → DateTimeFormatOptions → Nat → String

/-- `toReadableDateTime` from `DateFormatter` (part_001 lines 3-16). -/
def toReadableDateTime (env : DateEnv) (date : Option Nat) : String :=
  match date with
  | none => "???"
  | some d => env.toLocaleString env.language dateTimeOptions d

/-- `toReadableDate` from `DateFormatter` (part_001 lines 18-29). -/
def toReadableDate (env : DateEnv) (date : Option Nat) : String :=
  match date with
  | none => "???"
  | some d => env.toLocaleString env.language dateOnlyOptions d

/-! ## PerforceApi record types (as used by the embedded modules) -/

/-- Integration direction (`p4.Direction`). -/
inductive Direction where
  | FROM
  | TO
deriving DecidableEq, Repr

/-- One integration record attached to a filelog entry. -/
structure Integration where
  direction : Direction
  operation : String
  file : String
  startRev : String
  endRev : String
deriving DecidableEq, Repr

/-- `p4.FileLogItem`: one revision in a file's history. -/
structure FileLogItem where
  file : String
  revision : String
  chnum : String
  operation : String
  user : String
  description : String
  date : Option Nat
  integrations : List Integration
deriving DecidableEq, Repr

/-- `p4.HaveFile`: the locally-synced revision record. -/
structure HaveFile where
  revision : String
  localUri : String
deriving DecidableEq, Repr

/-- `p4.DepotFileOperation`: one affected/shelved file of a changelist. -/
structure DepotFileOperation where
  depotPath : String
  revision : String
  operation : String
deriving DecidableEq, Repr

/-- A fixed job attached to a described changelist. -/
structure Job where
  id : String
  description : List String
deriving DecidableEq, Repr

/-- `p4.DescribedChangelist` (the fields used by the embedded modules). -/
structure DescribedChangelist where
  chnum : String
  user : String
  description : List String
  date : Option Nat
  isPending : Bool
  affectedFiles : List DepotFileOperation
  shelvedFiles : List DepotFileOperation
  fixedJobs : List Job
deriving DecidableEq, Repr

/-- `ChangeInfo` from `api/CommonTypes` (the fields used by the tree view). -/
structure ChangeInfo where
  chnum : String
  user : String
  description : List String
  isPending : Bool
deriving DecidableEq, Repr

/-- A quick-pick action item: its visible label and optional description.
The attached `performAction` closures are UI callbacks and are not part of
the data the claims are about. -/
structure Pick where
  label : String
  description : Option String
deriving DecidableEq, Repr

/-- An actionable quick pick: the flat item list and the placeholder text. -/
structure ActionableQuickPick where
  items : List Pick
  placeHolder : String
deriving DecidableEq, Repr

/-! ## FileQuickPick (`src/unnamed/part_000`) -/

/-- The no-break space used for layout in pick labels. -/
def nbsp : String := "\xa0"

/-- JavaScript `isNaN(parseInt(s))`: true when, after leading whitespace and
an optional sign, the string does not start with a digit. -/
def jsParseIntIsNaN (s : String) : Bool :=
  let t := s.toList.dropWhile (fun c => c == ' ' || c == '\t' || c == '\n' || c == '\r')
  let t2 := match t with
    | '+' :: r => r
    | '-' :: r => r
    | r => r
  match t2 with
  | [] => true
  | c :: _ => !c.isDigit

/-- The revision resolution of `getChangeDetails` (part_000 lines 179-184):
use the URI's revision label when it parses as a number, otherwise fall back
to the have record's revision; `none` when the resulting value is falsy
(absent or the empty string), which is exactly when the code throws
"No revision available". `uriRev` is the string returned by
`PerforceUri.getRevOrAtLabel` (empty when the URI carries no revision). -/
def resolvedRevision (uriRev : String) (haveFile : Option HaveFile) : Option String :=
  let useRev : Option String :=
    if uriRev == "" || jsParseIntIsNaN uriRev then haveFile.map (·.revision)
    else some uriRev
  match useRev with
  | none => none
  | some r => if r == "" then none else some r

/-- `ChangeDetails` from part_000 lines 127-135. The TypeScript type declares
`current` and `latest` as always present, but they are produced by plain array
indexing, so the embedding keeps them optional. -/
structure ChangeDetails where
  all : List FileLogItem
  current : Option FileLogItem
  currentIndex : Int
  next : Option FileLogItem
  prev : Option FileLogItem
  latest : Option FileLogItem
  haveFile : Option HaveFile
deriving DecidableEq, Repr

/-- `getChangeDetails` from part_000 lines 172-204, as a pure function of the
URI's revision label, the have record, and the fetched filelog (the CLI calls
`p4.have` and `p4.getFileHistory` supply the latter two; with a cache the
cached values are used, identically). Each invocation rebuilds the pointers
from the given filelog. -/
def getChangeDetails (uriRev : String) (haveFile : Option HaveFile)
    (filelog : List FileLogItem) : Except String ChangeDetails :=
  match resolvedRevision uriRev haveFile with
  | none => .error "No revision available"
  | some useRev =>
    if filelog.isEmpty then .error "Filelog info empty"
    else
      let currentIndex := jsFindIndex (fun c => c.revision == useRev) filelog
      .ok
        { all := filelog
          current := jsIndex filelog currentIndex
          currentIndex := currentIndex
          next := jsIndex filelog (currentIndex - 1)
          prev := jsIndex filelog (currentIndex + 1)
          latest := jsIndex filelog 0
          haveFile := haveFile }

/-- Modelled from the spec: `Path.basename` (Node's standard path module, not
repo code): the final component of a slash-separated path. -/
def basename (s : String) : String :=
  match (s.splitOn "/").getLast? with
  | some b => b
  | none => s

/-- Modelled from the spec: `DiffProvider.diffTitleForDepotPaths` (not in
`src/`): a human-readable title naming the two depot-path revisions of a
diff. -/
def diffTitleForDepotPaths (file1 rev1 file2 rev2 : String) : String :=
  file1 ++ "#" ++ rev1 ++ " vs " ++ file2 ++ "#" ++ rev2

/-- Modelled from the spec: `qp.makeClipPick` from `QuickPickProvider` (not in
`src/`): a pick that copies the named value to the clipboard. -/
def makeClipPick (name value : String) : Pick :=
  { label := "$(clippy) Copy " ++ name, description := some value }

/-- Modelled from the spec: the string rendering of an opaque timestamp used
by JavaScript's `Date.prototype.toString` in `makeShortSummary`. -/
def dateToString (d : Nat) : String := toString d

/-- `makeRevisionSummary` from part_000 lines 144-158. -/
def makeRevisionSummary (env : DateEnv) (change : FileLogItem) : String :=
  change.file ++ "#" ++ change.revision ++ " " ++ change.operation ++ " on " ++
    toReadableDateTime env change.date ++ " by " ++ change.user ++ " : " ++
    change.description

/-- `makeShortSummary` from part_000 lines 160-170. -/
def makeShortSummary (change : FileLogItem) : String :=
  "#" ++ change.revision ++
    (match change.date with
      | some d => "  $(calendar) " ++ dateToString d
      | none => "") ++
    " $(person) " ++ change.user ++ " $(circle-filled) " ++
    jsSlice change.description 0 32

/-- `makeNextAndPrevPicks` from part_000 lines 403-479, given the change
details and the (present) current revision. The `.filter(isTruthy)` of the
source drops exactly the entry for an absent integration source. -/
def makeNextAndPrevPicks (changes : ChangeDetails) (cur : FileLogItem) : List Pick :=
  let integFrom := cur.integrations.find? (fun i => i.direction == Direction.FROM)
  (match changes.prev with
    | some p =>
      [{ label := "$(arrow-small-left) Previous revision"
         description := some (makeShortSummary p) }]
    | none =>
      [{ label := "$(arrow-small-left) Previous revision", description := some "n/a" }]) ++
  (match changes.next with
    | some n =>
      [{ label := "$(arrow-small-right) Next revision"
         description := some (makeShortSummary n) }]
    | none =>
      [{ label := "$(arrow-small-right) Next revision", description := some "n/a" }]) ++
  [{ label := "$(symbol-numeric) File history..."
     description := some "Go to a specific revision" }] ++
  (match integFrom with
    | some i =>
      [{ label := "$(git-merge) Go to integration source revision"
         description := some (i.operation ++ " from " ++ i.file ++ "#" ++ i.endRev) }]
    | none => []) ++
  [{ label := "$(source-control) Go to integration target..."
     description := some "See integrations that include this revision" }]

/-- `makeClipboardPicks` from part_000 lines 481-491 (FileQuickPick). -/
def fileClipboardPicks (cur : FileLogItem) : List Pick :=
  [makeClipPick "depot path" (cur.file ++ "#" ++ cur.revision)]

/-- `makeSyncPicks` from part_000 lines 493-513. -/
def makeSyncPicks (cur : FileLogItem) : List Pick :=
  [{ label := "$(repo-pull) Sync this revision"
     description := some ("Sync " ++ basename cur.file ++ "#" ++ cur.revision) }]

/-- `makeDiffPicks` from part_000 lines 515-606. The source compares
`latest !== changes.current` by object identity; `latest` is `filelog[0]` and
`current` is `filelog[currentIndex]`, so on the freshly parsed (distinct)
objects this holds exactly when `currentIndex ≠ 0`. -/
def makeDiffPicks (changes : ChangeDetails) (cur : FileLogItem) : List Pick :=
  [{ label := "$(file) Show this revision"
     description := some "Open this revision in the editor" }] ++
  (match changes.haveFile with
    | some _ =>
      [{ label := "$(file) Open workspace file"
         description := some "Open the local file in the editor" }]
    | none => []) ++
  [{ label := "$(list-ordered) Annotate this revision"
     description := some "Open in the editor, with change details for each line" }] ++
  (match changes.prev with
    | some p =>
      [{ label := "$(diff) Diff against previous revision"
         description := some (diffTitleForDepotPaths p.file p.revision cur.file cur.revision) }]
    | none => []) ++
  (if changes.currentIndex == 0 then []
   else match changes.latest with
     | some latest =>
       [{ label := "$(diff) Diff against latest revision"
          description := some (diffTitleForDepotPaths cur.file cur.revision latest.file latest.revision) }]
     | none => []) ++
  [{ label := "$(diff) Diff against workspace file"
     description := some (match changes.haveFile with
       | some _ => ""
       | none => "No matching workspace file found") },
   { label := "$(diff) Diff against..."
     description := some "Choose another revision to diff against" }]

/-- `makeChangelistPicks` from part_000 lines 608-626. -/
def makeChangelistPicks (cur : FileLogItem) : List Pick :=
  [{ label := "$(list-flat) Go to changelist details"
     description := some ("Change " ++ cur.chnum ++ nbsp ++ " $(book) " ++ nbsp ++
       cur.description) }]

/-- `fileQuickPickProvider.provideActions` from part_000 lines 19-35, as a
pure function of the data the CLI supplies. When `getChangeDetails` resolves
no matching entry, `current` is `undefined` and the pick makers dereference
it, which in JavaScript raises a `TypeError` — embedded as an error. -/
def fileProvideActions (env : DateEnv) (uriRev : String) (haveFile : Option HaveFile)
    (filelog : List FileLogItem) : Except String ActionableQuickPick :=
  match getChangeDetails uriRev haveFile filelog with
  | .error e => .error e
  | .ok changes =>
    match changes.current with
    | none => .error "TypeError: cannot read properties of undefined"
    | some cur =>
      .ok
        { items :=
            makeNextAndPrevPicks changes cur ++ fileClipboardPicks cur ++
              makeSyncPicks cur ++ makeDiffPicks changes cur ++
              makeChangelistPicks cur
          placeHolder := makeRevisionSummary env cur }

/-! ## ChangeQuickPick (`src/src/quickPick/ChangeQuickPick.ts`) -/

/-- `getOperationIcon` from `ChangeQuickPick.ts` lines 201-216. -/
def getOperationIcon (operation : String) : String :=
  if operation == "add" then "diff-added"
  else if operation == "delete" || operation == "move/delete" || operation == "purge" then
    "diff-removed"
  else if operation == "move/add" || operation == "integrate" || operation == "branch" then
    "diff-renamed"
  else "diff-modified"

/-- `makeFocusPick` from `ChangeQuickPick.ts` lines 218-230. -/
def makeFocusPick (_change : DescribedChangelist) : List Pick :=
  [{ label := "$(multiple-windows) Focus in changelist search view", description := none }]

/-- `makeSwarmPick` from `ChangeQuickPick.ts` lines 232-257, given the
configured swarm link (if any) and the host's URI parser (an oracle: `none`
models `vscode.Uri.parse` throwing, which the source catches, returning no
pick). -/
def makeSwarmPick (swarmLink : Option String) (uriParse : String → Option String) :
    List Pick :=
  match swarmLink with
  | none => []
  | some addr =>
    match uriParse addr with
    | some u =>
      [{ label := "$(eye) Open in review tool", description := some ("$(link-external) " ++ u) }]
    | none => []

/-- `makeEditPicks` from `ChangeQuickPick.ts` lines 259-272. -/
def makeEditPicks (_change : DescribedChangelist) : List Pick :=
  [{ label := "$(edit) Edit changelist"
     description := some "Edit the full changelist spec in the editor" }]

/-- `makeClipboardPicks` from `ChangeQuickPick.ts` lines 274-283. -/
def changeClipboardPicks (change : DescribedChangelist) : List Pick :=
  [makeClipPick "change number" change.chnum,
   makeClipPick "user" change.user,
   makeClipPick "change description" (String.intercalate "\n" change.description)]

/-- `makeFilePicks` from `ChangeQuickPick.ts` lines 285-317. -/
def makeFilePicks (change : DescribedChangelist) : List Pick :=
  { label := "Changed files: " ++ toString change.affectedFiles.length
    description := none } ::
  change.affectedFiles.map (fun file =>
    { label := nbsp ++ nbsp ++ nbsp ++ "$(" ++ getOperationIcon file.operation ++ ")" ++
        " " ++ file.depotPath ++ "#" ++ file.revision
      description := some file.operation })

/-- `makeUnshelvePicks` from `ChangeQuickPick.ts` lines 343-382. -/
def makeUnshelvePicks (change : Option DescribedChangelist) : List Pick :=
  match change with
  | none => []
  | some c =>
    if c.shelvedFiles.length < 1 then []
    else
      [{ label := "$(cloud-download) Unshelve changelist..."
         description := some "Unshelve into a selected changelist" },
       { label := "$(cloud-download) Unshelve via branch mapping..."
         description := some "Unshelve, mapping through a branch spec" }]

/-- `makeShelvedFilePicks` from `ChangeQuickPick.ts` lines 384-418. -/
def makeShelvedFilePicks (change : Option DescribedChangelist) : List Pick :=
  match change with
  | none => []
  | some c =>
    if c.shelvedFiles.length < 1 then []
    else
      { label := "Shelved files: " ++ toString c.shelvedFiles.length
        description := none } ::
      c.shelvedFiles.map (fun file =>
        { label := nbsp ++ nbsp ++ nbsp ++ "$(" ++ getOperationIcon file.operation ++ ")" ++
            " " ++ file.depotPath ++ "#" ++ file.revision
          description := some file.operation })

/-- `makeJobPicks` from `ChangeQuickPick.ts` lines 420-439. -/
def makeJobPicks (change : DescribedChangelist) : List Pick :=
  { label := "Jobs fixed: " ++ toString change.fixedJobs.length
    description := none } ::
  change.fixedJobs.map (fun job =>
    { label := nbsp ++ nbsp ++ nbsp ++ "$(tools) " ++ job.id
      description := some (String.intercalate " " job.description) })

/-- The external collaborators of `changeQuickPickProvider.provideActions`:
the result of the plain `p4.describe` for the changelist, the result the
shelved `p4.describe` would return if invoked, the configured swarm link and
the host URI parser, and the date-formatting environment. -/
structure ChangeQPEnv where
  describeResult : List DescribedChangelist
  shelvedDescribeResult : List DescribedChangelist
  swarmLink : Option String
  uriParse : String → Option String
  dateEnv : DateEnv

/-- `changeQuickPickProvider.provideActions` from `ChangeQuickPick.ts`
lines 21-72, as a pure function of the CLI/host environment. The shelved
describe result is consulted only on the `isPending` branch (lines 39-45). -/
def changeProvideActions (chnum : String) (env : ChangeQPEnv) :
    Except String ActionableQuickPick :=
  match env.describeResult with
  | [] => .error "Unable to find change details"
  | change :: _ =>
    let shelvedChanges := if change.isPending then env.shelvedDescribeResult else []
    let shelvedChange := shelvedChanges.head?
    .ok
      { items :=
          makeFocusPick change ++ makeSwarmPick env.swarmLink env.uriParse ++
            changeClipboardPicks change ++ makeEditPicks change ++
            makeUnshelvePicks shelvedChange ++ makeJobPicks change ++
            makeFilePicks change ++ makeShelvedFilePicks shelvedChange
        placeHolder :=
          (if change.isPending then "Pending" else "Submitted") ++ " change " ++
            chnum ++ " by " ++ change.user ++ " on " ++
            toReadableDateTime env.dateEnv change.date ++ " : " ++
            String.intercalate " " change.description }

/-! ## ChangelistTreeView (`src/src/search/ChangelistTreeView.ts`) -/

/-- Modelled from the spec: `dedupe` from `TsUtils` (not in `src/`), applied
with the `"chnum"` key: drop every entry whose key already occurred earlier,
keeping first occurrences ("duplicate changelists returned by the CLI are
removed"). `seen` accumulates the keys already kept. -/
def dedupeAux (seen : List String) : List ChangeInfo → List ChangeInfo
  | [] => []
  | c :: rest =>
    if c.chnum ∈ seen then dedupeAux seen rest
    else c :: dedupeAux (c.chnum :: seen) rest

/-- `dedupe(results, "chnum")` as used by `SearchResultTree`. -/
def dedupe (l : List ChangeInfo) : List ChangeInfo :=
  dedupeAux [] l

/-- A `SearchResultItem` child node (`ChangelistTreeView.ts` lines 288-332):
constructed from the resource and one changelist. Its own sub-children
(affected/shelved files) are filled in asynchronously and are not part of
the parent's child list. -/
structure SearchResultItemM where
  resource : String
  change : ChangeInfo
deriving DecidableEq, Repr

/-- The state of a `SearchResultTree` node (lines 344-441): the stored
(deduplicated) results and its owned list of child items. Tree nodes are
modelled from the spec as "ephemeral UI objects owning child node lists";
`clearChildren`/`addChild` from the missing `TreeView` base class become
list replacement/append. -/
structure SearchResultTreeState where
  resource : String
  results : List ChangeInfo
  children : List SearchResultItemM
deriving DecidableEq, Repr

/-- The `SearchResultTree` constructor (lines 348-356): dedupe the results by
`chnum` and add one `SearchResultItem` child per deduplicated result. -/
def mkSearchResultTree (resource : String) (results : List ChangeInfo) :
    SearchResultTreeState :=
  let r := dedupe results
  { resource := resource
    results := r
    children := r.map (fun c => { resource := resource, change := c }) }

/-- `SearchResultTree.refresh` (lines 407-416) with the re-fetched CLI results
(`getNewResults`) passed as `newResults`: store the deduplicated new results,
clear all children, and add one fresh `SearchResultItem` per new result. -/
def refreshTree (st : SearchResultTreeState) (newResults : List ChangeInfo) :
    SearchResultTreeState :=
  let r := dedupe newResults
  { st with
    results := r
    children := r.map (fun c => { resource := st.resource, change := c }) }

/-! ## Helper lemmas -/

lemma toList_mk (l : List Char) : (String.mk l).toList = l := rfl

lemma hashChars : "#".toList = ['#'] := rfl

lemma findIdxO_eq_takeWhile_length (c : Char) :
    ∀ l : List Char, c ∈ l →
      findIdxO (· == c) l = some ((l.takeWhile (fun x => !(x == c))).length) := by
  intro l
  induction l with
  | nil => intro h; cases h
  | cons a t ih =>
    intro h
    by_cases hac : a = c
    · subst hac
      simp [findIdxO, List.takeWhile_cons]
    · have hct : c ∈ t := by
        rcases List.mem_cons.mp h with h1 | h1
        · exact absurd h1.symm hac
        · exact h1
      have hb : (a == c) = false := by simp [hac]
      simp [findIdxO, List.takeWhile_cons, hb, ih hct]

lemma take_takeWhile_length (p : Char → Bool) :
    ∀ l : List Char, l.take ((l.takeWhile p).length) = l.takeWhile p := by
  intro l
  induction l with
  | nil => rfl
  | cons a t ih =>
    by_cases hp : p a = true
    · simp [List.takeWhile_cons, hp, ih]
    · simp [List.takeWhile_cons, Bool.of_not_eq_true hp]

lemma takeWhile_length_le (p : Char → Bool) :
    ∀ l : List Char, (l.takeWhile p).length ≤ l.length := by
  intro l
  induction l with
  | nil => simp
  | cons a t ih =>
    by_cases hp : p a = true
    · simp [List.takeWhile_cons, hp]
      omega
    · simp [List.takeWhile_cons, Bool.of_not_eq_true hp]

lemma drop_min_length (l : List Char) (n : Nat) : l.drop (min n l.length) = l.drop n := by
  rcases le_total n l.length with h | h
  · rw [min_eq_left h]
  · rw [min_eq_right h, List.drop_length, List.drop_eq_nil_of_le h]

lemma jsClampIdx_zero (len : Nat) : jsClampIdx len 0 = 0 := by
  simp [jsClampIdx]

lemma jsClampIdx_natCast (len : Nat) (n : Nat) : jsClampIdx len (n : Int) = min n len := by
  simp [jsClampIdx]

/-- The parsed field name is always a prefix (an initial `take`) of its
section. -/
lemma parseField_name_toList (sec : String) :
    (parseField sec).name.toList =
      sec.toList.take (jsClampIdx sec.toList.length (jsIndexOf sec ':')) := by
  show (String.mk _).toList = _
  rw [toList_mk]
  simp [jsSliceList, jsClampIdx_zero]

lemma isPrefixOf_single_take (c : Char) (l : List Char) (k : Nat)
    (h : [c].isPrefixOf (l.take k) = true) : [c].isPrefixOf l = true := by
  cases l with
  | nil =>
    cases k <;> simp [List.isPrefixOf] at h
  | cons a t =>
    cases k with
    | zero => simp [List.isPrefixOf] at h
    | succ k =>
      simp [List.isPrefixOf] at h ⊢
      exact h

/-- On a section containing a colon, `parseField` computes exactly the field
that claim C1 describes. -/
lemma parseField_eq_claimedField (sec : String) (h : ':' ∈ sec.toList) :
    parseField sec = claimedField sec := by
  have hidx : jsIndexOf sec ':' =
      (((sec.toList.takeWhile (fun x => !(x == ':'))).length : Nat) : Int) := by
    unfold jsIndexOf
    rw [findIdxO_eq_takeWhile_length ':' sec.toList h]
  have hle : (sec.toList.takeWhile (fun x => !(x == ':'))).length ≤ sec.toList.length :=
    takeWhile_length_le _ _
  have hname : jsSlice sec 0 (jsIndexOf sec ':') =
      String.mk (sec.toList.takeWhile (fun x => !(x == ':'))) := by
    rw [hidx]
    unfold jsSlice jsSliceList
    rw [jsClampIdx_zero, jsClampIdx_natCast, min_eq_left hle, List.drop_zero,
      take_takeWhile_length]
  have hval : jsSliceFrom sec (jsIndexOf sec ':' + 2) =
      String.mk (sec.toList.drop
        ((sec.toList.takeWhile (fun x => !(x == ':'))).length + 2)) := by
    rw [hidx]
    unfold jsSliceFrom jsSlice jsSliceList
    have hcast : (((sec.toList.takeWhile (fun x => !(x == ':'))).length : Nat) : Int) + 2 =
        (((sec.toList.takeWhile (fun x => !(x == ':'))).length + 2 : Nat) : Int) := by
      push_cast
      ring
    rw [hcast, jsClampIdx_natCast, jsClampIdx_natCast, min_self, List.take_length,
      drop_min_length]
  unfold parseField claimedField sectionName sectionValueStart
  rw [hname, hval]

/-! ## Claims about the spec parser -/

/-- Claim C1, counterexample: on the input `"abc"` (a single retained section
with no colon), JavaScript's `indexOf`/`slice` conventions make the parsed
field's name `"ab"` (the section minus its last character), not the section
text before a first colon, so the claim as stated fails. -/
theorem c1_counterexample :
    parseSpecOutput "abc" ≠ claimedParseSpecOutput "abc" := by decide

/-- Claim C1 (amended): for every input string all of whose retained sections
contain a colon, `parseSpecOutput` returns one `RawField` per retained
section where the name is the section text before the first colon and the
value is the section text starting two characters after that colon, with a
leading newline removed, split into lines, and the indentation removed per
field. -/
theorem c1_parseSpecOutput_amended (s : String)
    (h : ∀ sec ∈ excludeNonFields (splitIntoSections s), ':' ∈ sec.toList) :
    parseSpecOutput s = claimedParseSpecOutput s := by
  unfold parseSpecOutput claimedParseSpecOutput parseRawFields
  exact List.map_congr_left (fun sec hsec => parseField_eq_claimedField sec (h sec hsec))

/-- Witness for claim C1's amended theorem at a concrete two-section spec. -/
theorem c1_witness :
    parseSpecOutput "Change: 123\n\nUser: me" =
      claimedParseSpecOutput "Change: 123\n\nUser: me" :=
  c1_parseSpecOutput_amended "Change: 123\n\nUser: me" (by decide)

/-- Claim C7: `parseSpecOutput` maps the retained sections in order (the
retained sections being an order-preserving sublist of all sections), and
each field's value is an order-preserving per-line map over the lines of the
section's value text. -/
theorem c7_parseSpecOutput_order (s : String) :
    parseSpecOutput s = (excludeNonFields (splitIntoSections s)).map parseField ∧
    List.Sublist (excludeNonFields (splitIntoSections s)) (splitIntoSections s) ∧
    ∀ sec : String, (parseField sec).value =
      (splitIntoLines (removeLeadingNewline
        (jsSliceFrom sec (jsIndexOf sec ':' + 2)))).map stripIndentLine :=
  ⟨rfl, List.filter_sublist _, fun _ => rfl⟩

/-- Claim C8: the sections starting with `'#'` and the empty sections are
filtered out before field parsing, every retained section is non-empty and
does not start with `'#'`, and consequently no resulting field has a name
beginning with `'#'`. -/
theorem c8_excludeNonFields (s : String) :
    parseSpecOutput s = parseRawFields (excludeNonFields (splitIntoSections s)) ∧
    excludeNonFields (splitIntoSections s) =
      (splitIntoSections s).filter
        (fun part => !(jsStartsWith part "#") && !(part == "")) ∧
    (∀ sec ∈ excludeNonFields (splitIntoSections s),
      jsStartsWith sec "#" = false ∧ sec ≠ "") ∧
    (∀ f ∈ parseSpecOutput s, jsStartsWith f.name "#" = false) := by
  refine ⟨rfl, rfl, ?_, ?_⟩
  · intro sec hsec
    rw [excludeNonFields, List.mem_filter] at hsec
    have hp := hsec.2
    simp only [Bool.and_eq_true, Bool.not_eq_true'] at hp
    refine ⟨hp.1, ?_⟩
    intro he
    rw [he] at hp
    simp at hp
  · intro f hf
    rw [parseSpecOutput, parseRawFields] at hf
    rcases List.mem_map.mp hf with ⟨sec, hsec, rfl⟩
    rw [excludeNonFields, List.mem_filter] at hsec
    have hns : jsStartsWith sec "#" = false := by
      have hp := hsec.2
      simp only [Bool.and_eq_true, Bool.not_eq_true'] at hp
      exact hp.1
    cases hb : jsStartsWith (parseField sec).name "#" with
    | false => rfl
    | true =>
      exfalso
      rw [jsStartsWith, hashChars, parseField_name_toList] at hb
      rw [jsStartsWith, hashChars] at hns
      rw [isPrefixOf_single_take '#' sec.toList _ hb] at hns
      cases hns

/-- Witness for claim C8 at a concrete spec containing a comment section. -/
theorem c8_witness :
    jsStartsWith (RawField.mk "Change" ["123"]).name "#" = false :=
  (c8_excludeNonFields "# comment\n\nChange: 123").2.2.2
    (RawField.mk "Change" ["123"]) (by decide)

/-! ## Claims about getChangeDetails -/

lemma findIdxO_some_get {p : α → Bool} :
    ∀ {l : List α} {i : Nat}, findIdxO p l = some i →
      ∃ a, l.get? i = some a ∧ p a = true := by
  intro l
  induction l with
  | nil => intro i h; cases h
  | cons a t ih =>
    intro i h
    by_cases hp : p a = true
    · rw [findIdxO, if_pos hp] at h
      cases h
      exact ⟨a, rfl, hp⟩
    · rw [findIdxO, if_neg hp] at h
      rcases Option.map_eq_some'.mp h with ⟨j, hj, hij⟩
      rcases ih hj with ⟨b, hb, hpb⟩
      subst hij
      exact ⟨b, hb, hpb⟩

lemma findIdxO_eq_none {p : α → Bool} :
    ∀ {l : List α}, (∀ a ∈ l, p a = false) → findIdxO p l = none := by
  intro l
  induction l with
  | nil => intro _; rfl
  | cons a t ih =>
    intro h
    have hpa : p a = false := h a (List.mem_cons_self a t)
    rw [findIdxO, if_neg (by simp [hpa]), ih (fun b hb => h b (List.mem_cons_of_mem a hb))]
    rfl

lemma jsIndex_natCast (l : List α) (n : Nat) : jsIndex l (n : Int) = l.get? n := by
  simp [jsIndex]

lemma jsIndex_negOne (l : List α) : jsIndex l (-1) = none := rfl

lemma jsIndex_zero (l : List α) : jsIndex l 0 = l.head? := by
  have h0 : (0 : Int) = ((0 : Nat) : Int) := rfl
  rw [h0, jsIndex_natCast]
  cases l <;> rfl

/-- Claim C2: when the resolved revision matches an entry of the non-empty
filelog, `getChangeDetails` succeeds and returns the matching entry as
`current`, the entry just before it in the list as `next` and the one just
after it as `prev` (each absent at the respective end of the list), the first
entry as `latest`, and the whole fetched list as `all` — all rebuilt from the
given filelog on this invocation. -/
theorem c2_getChangeDetails_pointers (uriRev : String) (haveFile : Option HaveFile)
    (filelog : List FileLogItem) (rev : String) (i : Nat)
    (hres : resolvedRevision uriRev haveFile = some rev)
    (hidx : findIdxO (fun c => c.revision == rev) filelog = some i) :
    ∃ cd, getChangeDetails uriRev haveFile filelog = .ok cd ∧
      cd.all = filelog ∧
      cd.currentIndex = (i : Int) ∧
      cd.current = filelog.get? i ∧
      (∃ e, filelog.get? i = some e ∧ e.revision = rev) ∧
      cd.next = (if i = 0 then none else filelog.get? (i - 1)) ∧
      cd.prev = filelog.get? (i + 1) ∧
      cd.latest = filelog.head? ∧
      cd.haveFile = haveFile := by
  have hne : filelog.isEmpty = false := by
    cases filelog with
    | nil => cases hidx
    | cons a t => rfl
  have hfind : jsFindIndex (fun c => c.revision == rev) filelog = (i : Int) := by
    rw [jsFindIndex, hidx]
  refine ⟨{ all := filelog
            current := jsIndex filelog (jsFindIndex (fun c => c.revision == rev) filelog)
            currentIndex := jsFindIndex (fun c => c.revision == rev) filelog
            next := jsIndex filelog (jsFindIndex (fun c => c.revision == rev) filelog - 1)
            prev := jsIndex filelog (jsFindIndex (fun c => c.revision == rev) filelog + 1)
            latest := jsIndex filelog 0
            haveFile := haveFile }, ?_, rfl, ?_, ?_, ?_, ?_, ?_, ?_, rfl⟩
  · rw [getChangeDetails, hres]
    simp only [hne, Bool.false_eq_true, if_false]
  · exact hfind
  · show jsIndex filelog (jsFindIndex (fun c => c.revision == rev) filelog) = _
    rw [hfind, jsIndex_natCast]
  · rcases findIdxO_some_get hidx with ⟨e, he, hpe⟩
    exact ⟨e, he, by simpa using hpe⟩
  · show jsIndex filelog (jsFindIndex (fun c => c.revision == rev) filelog - 1) = _
    rw [hfind]
    cases i with
    | zero => rfl
    | succ j =>
      have hcast : ((Nat.succ j : Nat) : Int) - 1 = ((j : Nat) : Int) := by
        push_cast
        ring
      rw [hcast, jsIndex_natCast]
      simp
  · show jsIndex filelog (jsFindIndex (fun c => c.revision == rev) filelog + 1) = _
    rw [hfind]
    have hcast : ((i : Nat) : Int) + 1 = ((i + 1 : Nat) : Int) := by push_cast; ring
    rw [hcast, jsIndex_natCast]
  · exact jsIndex_zero filelog

/-- A sample filelog entry used by the concrete witnesses. -/
def mkLog (rev : String) : FileLogItem :=
  { file := "//depot/a/f.txt", revision := rev, chnum := "c" ++ rev
    operation := "edit", user := "user1", description := "desc " ++ rev
    date := some 5, integrations := [] }

/-- Witness for claim C2 on a three-revision history with the middle revision
current. -/
theorem c2_witness :
    ∃ cd, getChangeDetails "2" none [mkLog "3", mkLog "2", mkLog "1"] = .ok cd ∧
      cd.all = [mkLog "3", mkLog "2", mkLog "1"] ∧
      cd.currentIndex = ((1 : Nat) : Int) ∧
      cd.current = [mkLog "3", mkLog "2", mkLog "1"].get? 1 ∧
      (∃ e, [mkLog "3", mkLog "2", mkLog "1"].get? 1 = some e ∧ e.revision = "2") ∧
      cd.next = (if 1 = 0 then none else [mkLog "3", mkLog "2", mkLog "1"].get? (1 - 1)) ∧
      cd.prev = [mkLog "3", mkLog "2", mkLog "1"].get? (1 + 1) ∧
      cd.latest = [mkLog "3", mkLog "2", mkLog "1"].head? ∧
      cd.haveFile = none :=
  c2_getChangeDetails_pointers "2" none [mkLog "3", mkLog "2", mkLog "1"] "2" 1
    (by decide) (by decide)

/-- Claim C3: `getChangeDetails` fails exactly when no revision resolves (from
the URI label or the have record) or the filelog is empty; on a non-empty
filelog with no entry matching the resolved revision it still succeeds, with
`current` absent and `currentIndex = -1` (despite the TypeScript type of
`ChangeDetails` declaring `current` as always present). -/
theorem c3_getChangeDetails_errors (uriRev : String) (haveFile : Option HaveFile)
    (filelog : List FileLogItem) :
    ((∃ e, getChangeDetails uriRev haveFile filelog = .error e) ↔
      (resolvedRevision uriRev haveFile = none ∨ filelog = [])) ∧
    (∀ rev, resolvedRevision uriRev haveFile = some rev → filelog ≠ [] →
      (∀ c ∈ filelog, c.revision ≠ rev) →
      ∃ cd, getChangeDetails uriRev haveFile filelog = .ok cd ∧
        cd.current = none ∧ cd.currentIndex = -1) := by
  constructor
  · cases hres : resolvedRevision uriRev haveFile with
    | none =>
      constructor
      · intro _; exact Or.inl rfl
      · intro _
        exact ⟨"No revision available", by rw [getChangeDetails, hres]⟩
    | some r =>
      cases filelog with
      | nil =>
        constructor
        · intro _; exact Or.inr rfl
        · intro _
          exact ⟨"Filelog info empty", by rw [getChangeDetails, hres]; rfl⟩
      | cons a t =>
        constructor
        · intro he
          rcases he with ⟨e, he⟩
          rw [getChangeDetails, hres] at he
          simp only [List.isEmpty_cons, Bool.false_eq_true, if_false] at he
          cases he
        · intro hor
          rcases hor with h1 | h2
          · exact Option.noConfusion h1
          · cases h2
  · intro rev hres hne hmatch
    cases filelog with
    | nil => exact absurd rfl hne
    | cons a t =>
      have hnone : findIdxO (fun c => c.revision == rev) (a :: t) = none := by
        refine findIdxO_eq_none ?_
        intro c hc
        have := hmatch c hc
        simp [this]
      refine ⟨{ all := a :: t
                current := jsIndex (a :: t) (jsFindIndex (fun c => c.revision == rev) (a :: t))
                currentIndex := jsFindIndex (fun c => c.revision == rev) (a :: t)
                next := jsIndex (a :: t) (jsFindIndex (fun c => c.revision == rev) (a :: t) - 1)
                prev := jsIndex (a :: t) (jsFindIndex (fun c => c.revision == rev) (a :: t) + 1)
                latest := jsIndex (a :: t) 0
                haveFile := haveFile }, ?_, ?_, ?_⟩
      · rw [getChangeDetails, hres]
        simp only [List.isEmpty_cons, Bool.false_eq_true, if_false]
      · show jsIndex (a :: t) (jsFindIndex (fun c => c.revision == rev) (a :: t)) = none
        rw [jsFindIndex, hnone]
        rfl
      · show jsFindIndex (fun c => c.revision == rev) (a :: t) = -1
        rw [jsFindIndex, hnone]

/-- Witness for claim C3: a one-revision history that does not contain the
resolved revision yields a successful result with no current entry. -/
theorem c3_witness :
    ∃ cd, getChangeDetails "5" none [mkLog "1"] = .ok cd ∧
      cd.current = none ∧ cd.currentIndex = -1 :=
  (c3_getChangeDetails_errors "5" none [mkLog "1"]).2 "5" (by decide) (by decide)
    (by decide)

/-! ## Claims about the change quick pick -/

/-- Claim C4: the shelved describe result is consulted only for a pending
change; the unshelve picks and shelved-file picks occupy their fixed places
in the flat action list and are non-empty exactly when the shelved
description exists and lists at least one shelved file; for a submitted
change both are empty. -/
theorem c4_changeProvideActions_shelved (chnum : String) (env : ChangeQPEnv)
    (change : DescribedChangelist) (rest : List DescribedChangelist)
    (hdesc : env.describeResult = change :: rest) :
    (change.isPending = false →
      ∀ alt, changeProvideActions chnum { env with shelvedDescribeResult := alt } =
        changeProvideActions chnum env) ∧
    (∃ res, changeProvideActions chnum env = .ok res ∧
      res.items =
        makeFocusPick change ++ makeSwarmPick env.swarmLink env.uriParse ++
          changeClipboardPicks change ++ makeEditPicks change ++
          makeUnshelvePicks
            ((if change.isPending then env.shelvedDescribeResult else []).head?) ++
          makeJobPicks change ++ makeFilePicks change ++
          makeShelvedFilePicks
            ((if change.isPending then env.shelvedDescribeResult else []).head?)) ∧
    ((makeUnshelvePicks
        ((if change.isPending then env.shelvedDescribeResult else []).head?) ≠ [] ∨
      makeShelvedFilePicks
        ((if change.isPending then env.shelvedDescribeResult else []).head?) ≠ []) ↔
      ∃ c, (if change.isPending then env.shelvedDescribeResult else []).head? = some c ∧
        c.shelvedFiles ≠ []) ∧
    (change.isPending = false →
      makeUnshelvePicks
        ((if change.isPending then env.shelvedDescribeResult else []).head?) = [] ∧
      makeShelvedFilePicks
        ((if change.isPending then env.shelvedDescribeResult else []).head?) = []) := by
  refine ⟨?_, ?_, ?_, ?_⟩
  · intro hp alt
    simp [changeProvideActions, hdesc, hp]
  · exact ⟨_, by rw [changeProvideActions, hdesc], rfl⟩
  · cases hsc : (if change.isPending then env.shelvedDescribeResult else []).head? with
    | none =>
      simp [makeUnshelvePicks, makeShelvedFilePicks]
    | some c =>
      cases hsf : c.shelvedFiles with
      | nil =>
        simp [makeUnshelvePicks, makeShelvedFilePicks, hsf]
      | cons f fs =>
        simp only [makeUnshelvePicks, makeShelvedFilePicks, hsf]
        simp [hsf]
  · intro hp
    simp [makeUnshelvePicks, makeShelvedFilePicks, hp]

/-- A sample pending changelist with one shelved file, for the witnesses. -/
def sampleChange : DescribedChangelist :=
  { chnum := "101", user := "alice", description := ["fix bug"], date := some 7
    isPending := true, affectedFiles := []
    shelvedFiles := [{ depotPath := "//depot/x", revision := "1", operation := "edit" }]
    fixedJobs := [] }

/-- A sample CLI/host environment for the change quick pick witnesses. -/
def sampleEnv : ChangeQPEnv :=
  { describeResult := [sampleChange]
    shelvedDescribeResult := [sampleChange]
    swarmLink := none
    uriParse := fun _ => none
    dateEnv := { language := "en-US", toLocaleString := fun _ _ d => toString d } }

/-- Witness for claim C4 on a pending changelist with one shelved file. -/
theorem c4_witness :
    ∃ res, changeProvideActions "101" sampleEnv = .ok res ∧
      res.items =
        makeFocusPick sampleChange ++
          makeSwarmPick sampleEnv.swarmLink sampleEnv.uriParse ++
          changeClipboardPicks sampleChange ++ makeEditPicks sampleChange ++
          makeUnshelvePicks
            ((if sampleChange.isPending then sampleEnv.shelvedDescribeResult else []).head?) ++
          makeJobPicks sampleChange ++ makeFilePicks sampleChange ++
          makeShelvedFilePicks
            ((if sampleChange.isPending then sampleEnv.shelvedDescribeResult else []).head?) :=
  (c4_changeProvideActions_shelved "101" sampleEnv sampleChange [] rfl).2.1

/-! ## Claims about the search result tree -/

lemma dedupeAux_chnum_not_mem :
    ∀ (l : List ChangeInfo) (seen : List String) (x : ChangeInfo),
      x ∈ dedupeAux seen l → x.chnum ∉ seen := by
  intro l
  induction l with
  | nil => intro seen x h; cases h
  | cons c rest ih =>
    intro seen x h
    rw [dedupeAux] at h
    by_cases hc : c.chnum ∈ seen
    · rw [if_pos hc] at h
      exact ih seen x h
    · rw [if_neg hc] at h
      rcases List.mem_cons.mp h with h1 | h1
      · subst h1
        exact hc
      · intro hseen
        exact ih (c.chnum :: seen) x h1 (List.mem_cons_of_mem _ hseen)

lemma dedupeAux_pairwise :
    ∀ (l : List ChangeInfo) (seen : List String),
      (dedupeAux seen l).Pairwise (fun a b => a.chnum ≠ b.chnum) := by
  intro l
  induction l with
  | nil => intro seen; exact List.Pairwise.nil
  | cons c rest ih =>
    intro seen
    rw [dedupeAux]
    by_cases hc : c.chnum ∈ seen
    · rw [if_pos hc]
      exact ih seen
    · rw [if_neg hc]
      refine List.Pairwise.cons ?_ (ih (c.chnum :: seen))
      intro b hb hbc
      exact dedupeAux_chnum_not_mem rest (c.chnum :: seen) b hb
        (hbc ▸ List.mem_cons_self c.chnum seen)

lemma dedupe_pairwise (l : List ChangeInfo) :
    (dedupe l).Pairwise (fun a b => a.chnum ≠ b.chnum) :=
  dedupeAux_pairwise l []

lemma children_map_change (resource : String) (l : List ChangeInfo) :
    (l.map (fun c => ({ resource := resource, change := c } : SearchResultItemM))).map
      SearchResultItemM.change = l := by
  induction l with
  | nil => rfl
  | cons a t ih => simp [ih]

/-- Claim C5: `refresh` replaces the whole child set: the refreshed state's
results and children are computed solely from the newly fetched results
(independently of the previous children and results), with exactly one
`SearchResultItem` child per deduplicated new changelist. -/
theorem c5_refresh_replaces_children (st : SearchResultTreeState)
    (newResults : List ChangeInfo) :
    (refreshTree st newResults).results = dedupe newResults ∧
    (refreshTree st newResults).children =
      (dedupe newResults).map
        (fun c => { resource := st.resource, change := c }) ∧
    (∀ ch rs, refreshTree { st with children := ch, results := rs } newResults =
      refreshTree st newResults) ∧
    (refreshTree st newResults).children.map SearchResultItemM.change =
      dedupe newResults :=
  ⟨rfl, rfl, fun _ _ => rfl, children_map_change st.resource (dedupe newResults)⟩

/-- Claim C6: both at construction and after every refresh, the stored result
list holds at most one entry per changelist number, and the children
correspond one-to-one (in order) to the stored deduplicated results. -/
theorem c6_dedupe_invariant (resource : String) (results : List ChangeInfo)
    (st : SearchResultTreeState) (newResults : List ChangeInfo) :
    (mkSearchResultTree resource results).results.Pairwise
      (fun a b => a.chnum ≠ b.chnum) ∧
    (mkSearchResultTree resource results).children.map SearchResultItemM.change =
      (mkSearchResultTree resource results).results ∧
    (refreshTree st newResults).results.Pairwise (fun a b => a.chnum ≠ b.chnum) ∧
    (refreshTree st newResults).children.map SearchResultItemM.change =
      (refreshTree st newResults).results :=
  ⟨dedupe_pairwise results, children_map_change resource (dedupe results),
    dedupe_pairwise newResults, children_map_change st.resource (dedupe newResults)⟩

/-! ## Claims about the file quick pick and the date formatter -/

/-- Claim C9: whenever change details are obtained (with a current revision),
the file quick pick is the single flat concatenation of next/previous
navigation picks, clipboard picks, sync picks, diff picks, and changelist
picks, in that order, with the current revision's summary as placeholder. -/
theorem c9_fileProvideActions_layout (env : DateEnv) (uriRev : String)
    (haveFile : Option HaveFile) (filelog : List FileLogItem)
    (cd : ChangeDetails) (cur : FileLogItem)
    (hok : getChangeDetails uriRev haveFile filelog = .ok cd)
    (hcur : cd.current = some cur) :
    fileProvideActions env uriRev haveFile filelog =
      .ok { items := makeNextAndPrevPicks cd cur ++ fileClipboardPicks cur ++
              makeSyncPicks cur ++ makeDiffPicks cd cur ++ makeChangelistPicks cur
            placeHolder := makeRevisionSummary env cur } := by
  simp [fileProvideActions, hok, hcur]

/-- The date environment used by the file quick pick witness. -/
def sampleDateEnv : DateEnv :=
  { language := "en-US", toLocaleString := fun _ _ d => toString d }

/-- The change details that `getChangeDetails` computes for the witness's
one-revision history. -/
def sampleDetails : ChangeDetails :=
  { all := [mkLog "1"], current := some (mkLog "1"), currentIndex := 0
    next := none, prev := none, latest := some (mkLog "1"), haveFile := none }

/-- Witness for claim C9 on a one-revision history. -/
theorem c9_witness :
    fileProvideActions sampleDateEnv "1" none [mkLog "1"] =
      .ok { items := makeNextAndPrevPicks sampleDetails (mkLog "1") ++
              fileClipboardPicks (mkLog "1") ++ makeSyncPicks (mkLog "1") ++
              makeDiffPicks sampleDetails (mkLog "1") ++
              makeChangelistPicks (mkLog "1")
            placeHolder := makeRevisionSummary sampleDateEnv (mkLog "1") } :=
  c9_fileProvideActions_layout sampleDateEnv "1" none [mkLog "1"] sampleDetails
    (mkLog "1") rfl rfl

/-- Claim C10: both formatters return `"???"` for an absent date; otherwise
they format via the host's locale formatter with the editor's configured
language, `toReadableDateTime` requesting hour and minute and
`toReadableDate` only the date parts. -/
theorem c10_dateFormatter (env : DateEnv) (d : Nat) :
    toReadableDateTime env none = "???" ∧
    toReadableDate env none = "???" ∧
    toReadableDateTime env (some d) =
      env.toLocaleString env.language dateTimeOptions d ∧
    toReadableDate env (some d) =
      env.toLocaleString env.language dateOnlyOptions d ∧
    dateTimeOptions.hour = some "numeric" ∧
    dateTimeOptions.minute = some "numeric" ∧
    dateOnlyOptions.hour = none ∧
    dateOnlyOptions.minute = none ∧
    dateOnlyOptions.weekday = dateTimeOptions.weekday ∧
    dateOnlyOptions.year = dateTimeOptions.year ∧
    dateOnlyOptions.month = dateTimeOptions.month ∧
    dateOnlyOptions.day = dateTimeOptions.day :=
  ⟨rfl, rfl, rfl, rfl, rfl, rfl, rfl, rfl, rfl, rfl, rfl, rfl⟩

end VscPerforce
